import Mathlib

/-!
# Verification of the `expressive` reconciliation core

Shallow embedding of `src/lib/expressive/elements.js` (the canonical module;
the file contains consecutive historical variants of the same functions, and
each definition below names the variant/line range it is translated from).

Layer 1: the vnode data model and the diff engine (`changed`, `diffTree`,
`diffChildren`).  JavaScript values flowing through the diff are modelled by
`Val`: `undefined`, string and number leaves, and vnode arrays
`[tag, props, ...children]`.  JS truthiness and `typeof` are modelled
explicitly; numbers are embedded as `Int` (the claims only concern zero /
non-zero integers, `NaN` does not occur in any claim).
-/

namespace Expressive

/-- Property values stored in a vnode's `props` mapping.  The diff engine
never inspects prop values (`diffTree` slices children from index 2), so the
model restricts them to atomic data; event handlers are modelled separately
at the dispatch layer. -/
inductive PropV where
  | pstr : String → PropV
  | pnum : Int → PropV

/-- A props mapping `{k₁: v₁, …}` as an association list. -/
abbrev Props := List (String × PropV)

/-- A JavaScript value as seen by the diff engine: `undefined` (an absent
positional slot), a string leaf, a number leaf, or a vnode array
`[tag, props, ...children]`. -/
inductive Val where
  | undef : Val
  | vstr : String → Val
  | vnum : Int → Val
  | velem : String → Props → List Val → Val

/-- JS `typeof` on the modelled values (`typeof [] = "object"`). -/
def typeofVal : Val → String
  | .undef => "undefined"
  | .vstr _ => "string"
  | .vnum _ => "number"
  | .velem _ _ _ => "object"

/-- JS truthiness: `undefined`, `0` and `""` are falsy; arrays are truthy. -/
def truthy : Val → Bool
  | .undef => false
  | .vstr s => s != ""
  | .vnum n => n != 0
  | .velem _ _ _ => true

/-- `Array.isArray`. -/
def isArr : Val → Bool
  | .velem _ _ _ => true
  | _ => false

/-- `a[0]` of a vnode array: its tag. -/
def tagOf : Val → String
  | .velem t _ _ => t
  | _ => ""

/-- `a.slice(2)` of a vnode array: its children. -/
def childrenOf : Val → List Val
  | .velem _ _ cs => cs
  | _ => []

/-- `changed(a, b)` (elements.js lines 7–10):
`typeof a !== typeof b || typeof a === 'string' && a !== b
 || Array.isArray(a) && Array.isArray(b) && a[0] !== b[0]`.
The middle clause (`typeof a === 'string' && a !== b`) can only contribute
when both values are strings — otherwise either the first disjunct is
already true or the `typeof` guard fails — so it is written as the
both-strings content comparison. -/
def changed (a b : Val) : Bool :=
  typeofVal a != typeofVal b
  || (match a, b with
      | .vstr s, .vstr t => s != t
      | _, _ => false)
  || (isArr a && isArr b && tagOf a != tagOf b)

/-- A patch produced by `diffTree`: `CREATE`, `REMOVE`, `REPLACE` or
`UPDATE` with one (possibly absent) patch per child index.  A JS
`undefined` patch is `Option.none`. -/
inductive Patch where
  | create : Val → Patch
  | remove : Patch
  | replace : Val → Patch
  | update : List (Option Patch) → Patch

mutual

/-- `diffTree(a, b)` (elements.js lines 12–22).  The JS guards are
truthiness tests: `if (!a) return CREATE(b)`, `if (!b) return REMOVE`;
then `REPLACE` on `changed`, `UPDATE` over the child lists when both are
arrays, and fall-through to JS `undefined` (= `none`, no patch). -/
def diffTree (a b : Val) : Option Patch :=
  if ¬ truthy a then some (.create b)
  else if ¬ truthy b then some .remove
  else if changed a b then some (.replace b)
  else if _h : isArr a && isArr b then
    some (.update (diffChildren (childrenOf a) (childrenOf b)))
  else none
termination_by sizeOf a + sizeOf b
decreasing_by
  simp_wf
  cases a <;> cases b <;> simp_all [isArr, childrenOf]
  omega

/-- `diffChildren(aChildren, bChildren)` (elements.js lines 24–31): the JS
`for` loop over `0 … max(len a, len b) − 1`, reading an out-of-range index
as `undefined`, written as list recursion; `diffChildren_eq_getD` below
recovers the indexed form of the loop. -/
def diffChildren : List Val → List Val → List (Option Patch)
  | [], [] => []
  | a :: as, [] => diffTree a .undef :: diffChildren as []
  | [], b :: bs => diffTree .undef b :: diffChildren [] bs
  | a :: as, b :: bs => diffTree a b :: diffChildren as bs
termination_by as bs => sizeOf as + sizeOf bs

end

/-!
Layer 2: the host (DOM) model.  A materialized host node carries, besides
its visible structure, the per-element annotations owned by the element:
the `__vnode` last-rendered snapshot, the `__root` marker, and the
`stateMap` (generation side table) entry keyed by the element's identity —
keying by identity is modelled by storing the entry on the node itself.
Text nodes also carry the snapshot/state slots because JS allows setting
`__vnode` on (and using as a `WeakMap` key) any node.

The three platform singletons (`document.documentElement`, `document.head`,
`document.body`) are resolved by the source materializer to pre-existing
live elements; the model constructs fresh nodes instead (the claims under
verification never depend on singleton aliasing, only on the fact that
singleton tags are exempt from root marking and that the document element
is replaced wholesale by `render`).
-/

/-- A host node: a text node `(content, __vnode, stateMap entry)` or an
element `(tag, props, __root, __vnode, stateMap entry, childNodes)`. -/
inductive Dom where
  | text : String → Option Val → Option Int → Dom
  | elem : String → Props → Bool → Option Val → Option Int → List Dom → Dom

/-- `el.childNodes` (a text node has none). -/
def childNodes : Dom → List Dom
  | .text _ _ _ => []
  | .elem _ _ _ _ _ cs => cs

/-- The `__root` marker. -/
def isRootNode : Dom → Bool
  | .text _ _ _ => false
  | .elem _ _ r _ _ _ => r

/-- The `__vnode` snapshot annotation. -/
def nodeSnapshot : Dom → Option Val
  | .text _ sn _ => sn
  | .elem _ _ _ sn _ _ => sn

/-- The `stateMap` (generation side table) entry for the node. -/
def nodeState : Dom → Option Int
  | .text _ _ st => st
  | .elem _ _ _ _ st _ => st

/-- The element's tag (`""` for a text node). -/
def nodeTag : Dom → String
  | .text _ _ _ => ""
  | .elem t _ _ _ _ _ => t

/-- The element's bound properties (`[]` for a text node). -/
def nodeProps : Dom → Props
  | .text _ _ _ => []
  | .elem _ p _ _ _ _ => p

/-- `node.__vnode = v`. -/
def setSnapshot : Dom → Option Val → Dom
  | .text s _ st, v => .text s v st
  | .elem t p r _ st cs, v => .elem t p r v st cs

/-- `stateMap.set(node, g)`. -/
def setState : Dom → Option Int → Dom
  | .text s sn _, g => .text s sn g
  | .elem t p r sn _ cs, g => .elem t p r sn g cs

/-- `typeof document === 'undefined'`: the claims under verification run in
the interactive (browser) environment. -/
def isNodeEnv : Bool := false

/-- `String(n)` as used by `document.createTextNode` on a number. -/
def jsNumStr (n : Int) : String := toString n

/-- `isRoot && tag !== 'html' && tag !== 'head' && tag !== 'body'`: the
guard under which the materializer sets `el.__root` and seeds the side
table (elements.js line 97). -/
def rootFlag (isRoot : Bool) (tag : String) : Bool :=
  isRoot && !(tag == "html" || tag == "head" || tag == "body")

/-- `typeof node[2] === 'number' ? node[2] : 0` — the generation seed read
from the vnode's first child slot (elements.js line 99). -/
def genSeed : List Val → Int
  | .vnum k :: _ => k
  | _ => 0

mutual

/-- `renderTree(node, isRoot)` (elements.js lines 66–111, browser path).
A leaf becomes a text node; a `wrap` vnode unwraps its single child
(`node[2]`, `undefined` when missing) with `isRoot = true`; otherwise the
element for `tag` is created (platform singletons modelled as fresh nodes,
see the layer comment), `el.__vnode = node` is recorded, the root marker
and generation seed (`node[2]` when it is a number, else `0`) are set when
`isRoot` holds and the tag is not a singleton, props are bound, and the
children are materialized with `isRoot = false` and appended.  `none`
models a platform exception (destructuring `undefined` throws). -/
def renderTree (node : Val) (isRoot : Bool) : Option Dom :=
  match node with
  | .vstr s => some (.text s none none)
  | .vnum n => some (.text (jsNumStr n) none none)
  | .undef => none
  | .velem tag props cs =>
    if tag == "wrap" then
      renderTree (cs.headD .undef) true
    else if isNodeEnv then
      match renderTreeList cs with
      | none => none
      | some ds => some (.elem tag props false none none ds)
    else
      match renderTreeList cs with
      | none => none
      | some ds =>
        some (.elem tag props (rootFlag isRoot tag) (some node)
          (if rootFlag isRoot tag then some (genSeed cs) else none) ds)
termination_by sizeOf node
decreasing_by
  all_goals simp_wf
  cases cs with
  | nil => simp
  | cons c cs2 => simp; omega

/-- `children.forEach(child => el.appendChild(renderTree(child, false)))`. -/
def renderTreeList : List Val → Option (List Dom)
  | [] => some []
  | c :: cs =>
    match renderTree c false, renderTreeList cs with
    | some d, some ds => some (d :: ds)
    | _, _ => none
termination_by cs => sizeOf cs

end

/-- `parent.appendChild(newEl)`; appending to a text node throws. -/
def appendChildD : Dom → Dom → Option Dom
  | .text _ _ _, _ => none
  | .elem t p r sn st cs, d => some (.elem t p r sn st (cs ++ [d]))

/-- `parent.removeChild(childNodes[i])` (guarded by existence at call site). -/
def removeChildAt : Dom → Nat → Dom
  | .text s sn st, _ => .text s sn st
  | .elem t p r sn st cs, i => .elem t p r sn st (cs.eraseIdx i)

/-- `parent.replaceChild(newEl, childNodes[i])` (guarded at call site). -/
def setChildAt : Dom → Nat → Dom → Dom
  | .text s sn st, _, _ => .text s sn st
  | .elem t p r sn st cs, i, d => .elem t p r sn st (cs.set i d)

mutual

/-- `applyPatch(parent, patch, index)` (elements.js lines 113–136).  A
missing patch is a no-op; `CREATE` materializes and appends; `REMOVE`
deletes the child at `index` if present; `REPLACE` materializes and
substitutes the child at `index` (`replaceChild` with a missing child
throws); `UPDATE` applies each child patch against the child at `index`.
`none` models a platform exception escaping. -/
def applyPatch (parent : Dom) (patch : Option Patch) (index : Nat) : Option Dom :=
  match patch with
  | none => some parent
  | some (.create newNode) =>
    match renderTree newNode true with
    | none => none
    | some newEl => appendChildD parent newEl
  | some .remove =>
    match (childNodes parent)[index]? with
    | some _ => some (removeChildAt parent index)
    | none => some parent
  | some (.replace newNode) =>
    match (childNodes parent)[index]?, renderTree newNode true with
    | some _, some newEl => some (setChildAt parent index newEl)
    | _, _ => none
  | some (.update ps) =>
    match (childNodes parent)[index]? with
    | some child =>
      match applyPatchList child ps 0 with
      | some child2 => some (setChildAt parent index child2)
      | none => none
    | none =>
      -- `patch.children.forEach(...)` with an undefined child: the no-op
      -- entries return early, the first present entry throws.
      if ps.all Option.isNone then some parent else none
termination_by sizeOf patch

/-- `patch.children.forEach((p, i) => applyPatch(child, p, i))`. -/
def applyPatchList (parent : Dom) : List (Option Patch) → Nat → Option Dom
  | [], _ => some parent
  | p :: ps, i =>
    match applyPatch parent p i with
    | none => none
    | some parent2 => applyPatchList parent2 ps (i + 1)
termination_by ps _ => sizeOf ps

end

/-!
Layer 3: the event-triggered self-replacement protocol of the Property &
Event Binder (`assignProperties`), and the Render Entry Point (`render`).

`assignProperties` installs, for each `on*`-keyed callable prop, a wrapper
listener closing over the element and the user handler.  The model gives
the semantics of that wrapper firing: the host tree, the path of the
element carrying the listener, and the user handler (a Lean function
standing for the JS callable) determine the transition.
-/

/-- A path from the root of the modelled host tree to a node: child
indices into successive `childNodes` lists. -/
abbrev Path := List Nat

/-- The node reached by a path. -/
def getNode : Dom → Path → Option Dom
  | d, [] => some d
  | d, i :: p => (childNodes d)[i]?.bind fun c => getNode c p

/-- The `while (target && !target.__root) target = target.parentNode` walk
(elements.js lines 37–41): starting at the element itself, climb the
parent chain until a node carrying the root marker is found; `none` when
the walk leaves the modelled tree (nothing above it carries the marker). -/
def nearestRoot (doc : Dom) (p : Path) : Option Path :=
  match getNode doc p with
  | none => none
  | some nd =>
    if isRootNode nd then some p
    else if p.isEmpty then none
    else nearestRoot doc p.dropLast
termination_by p.length
decreasing_by
  simp_wf
  cases p with
  | nil => simp at *
  | cons a as => simp [List.length_dropLast]

/-- `stateMap.get` at a path. -/
def stateOf (doc : Dom) (p : Path) : Option Int :=
  (getNode doc p).bind nodeState

/-- Substitute the node at a (nonempty) path:
`parent.replaceChild(replacement, target)`. -/
def replaceAt : Dom → Path → Dom → Option Dom
  | _, [], r => some r
  | .text _ _ _, _ :: _, _ => none
  | .elem t pr rt sn st cs, i :: p, r =>
    match cs[i]? with
    | none => none
    | some c =>
      match replaceAt c p r with
      | none => none
      | some c2 => some (.elem t pr rt sn st (cs.set i c2))

/-- The value returned by a user event handler: a vnode array triggers
self-replacement, anything else is treated as purely side-effecting. -/
inductive HRes where
  | arr : Val → HRes
  | nonArr : HRes

/-- The wrapper listener installed by `assignProperties` (elements.js lines
33–64), firing on the element at `elPath`: walk up to the nearest
root-marked node; read its generation (`stateMap.get(target) ?? 0`); call
the user handler with it; if the result is an array, materialize it as a
new root, replace the old root in its host parent, record the snapshot and
`generation + 1` on the replacement.  `none` models the exception from a
failed materialization escaping (this variant has no try/catch). -/
def fire (doc : Dom) (elPath : Path) (handler : Int → HRes) : Option Dom :=
  match nearestRoot doc elPath with
  | none => some doc
  | some tpath =>
    let prev := (stateOf doc tpath).getD 0
    match handler prev with
    | .nonArr => some doc
    | .arr result =>
      if tpath.isEmpty then some doc
      else
        match renderTree result true with
        | none => none
        | some repl =>
          replaceAt doc tpath (setState (setSnapshot repl (some result)) (some (prev + 1)))

/-- The argument the wrapper passes to the user handler. -/
inductive HandlerArg where
  | generation : Int → HandlerArg
  | eventPayload : HandlerArg

/-- `/^(oninput|onsubmit|onchange)$/.test(k)`: the anchored alternation is
exact equality with one of the three event keys. -/
def isInputLikeEvent (k : String) : Bool :=
  k == "oninput" || k == "onsubmit" || k == "onchange"

/-- The replacement step of the try/catch wrapper variant: identical to
`fire`'s array branch, but exceptions are caught (logged and swallowed),
so a failed materialization leaves the tree unchanged. -/
def fireEventedCore (doc : Dom) (tpath : Path) (prev : Int) (result : HRes) : Dom :=
  match result with
  | .nonArr => doc
  | .arr v =>
    if tpath.isEmpty then doc
    else
      match renderTree v true with
      | none => doc
      | some repl =>
        match replaceAt doc tpath (setState (setSnapshot repl (some v)) (some (prev + 1))) with
        | none => doc
        | some doc2 => doc2

/-- The wrapper listener of the variant at elements.js lines 331–376: like
`fire`, but the handler for a recognized input-like event key receives the
native event payload (`v.call(el, args[0])`) instead of the generation
(`v.call(el, prev)`), and the body runs inside try/catch (exceptions are
logged and swallowed).  The second component reports the argument the user
handler was invoked with (`none` when the walk found no root and the
handler never ran). -/
def fireEvented (doc : Dom) (elPath : Path) (k : String)
    (handler : HandlerArg → HRes) : Dom × Option HandlerArg :=
  match nearestRoot doc elPath with
  | none => (doc, none)
  | some tpath =>
    let prev := (stateOf doc tpath).getD 0
    let arg := if isInputLikeEvent k then HandlerArg.eventPayload else HandlerArg.generation prev
    (fireEventedCore doc tpath prev (handler arg), some arg)

/-- `Array.isArray(vtree) && vtree[0] === 'html'`. -/
def isHtmlTagged (v : Val) : Bool := isArr v && tagOf v == "html"

/-- The error dispositions `render` can surface: the usage `Error` it
throws itself, or a platform exception escaping from materialization or
patching. -/
inductive RenderErr where
  | usage : RenderErr
  | native : RenderErr

/-- The host state `render` acts on: the singleton document element and,
when the call supplies one, the container element with its current
contents and `__vnode` snapshot.  `container = some c` models the call
`render(vtree, c)`; `container = none` models `render(vtree)`. -/
structure RenderState where
  docEl : Dom
  container : Option Dom

/-- `renderTree(vtree)` + insert for a first render of a target
(elements.js lines 150–156): wholesale replacement of the document element
when the target is the singleton, else append; then
`target.__vnode = vtree`. -/
def mountOnTarget (vtree : Val) (target : Dom) (isDoc : Bool) : Option Dom :=
  match renderTree vtree true with
  | none => none
  | some dom =>
    if isDoc then some dom
    else
      match appendChildD target dom with
      | none => none
      | some t2 => some (setSnapshot t2 (some vtree))

/-- The body of `render` after target resolution (elements.js lines
148–162): `if (!prevVNode)` mount, else diff + patch; in both branches
store `vtree` as the target's new snapshot. -/
def renderOnTarget (vtree : Val) (target : Dom) (isDoc : Bool) : Option Dom :=
  match nodeSnapshot target with
  | some pv =>
    if truthy pv then
      match applyPatch target (diffTree pv vtree) 0 with
      | none => none
      | some t2 => some (setSnapshot t2 (some vtree))
    else mountOnTarget vtree target isDoc
  | none => mountOnTarget vtree target isDoc

/-- `render(vtree, container?)` (elements.js lines 138–163): resolve the
target (the supplied container, else the document element when `vtree` is
`html`-tagged, else throw the usage error before touching any state);
then `renderOnTarget`.  A `.native` error models a platform exception
escaping mid-call (the model leaves the state unchanged there; no claim
depends on the partially-patched state). -/
def render (vtree : Val) (st : RenderState) : RenderState × Option RenderErr :=
  match st.container with
  | some c =>
    match renderOnTarget vtree c false with
    | none => (st, some .native)
    | some c2 => ({ st with container := some c2 }, none)
  | none =>
    if isHtmlTagged vtree then
      match renderOnTarget vtree st.docEl true with
      | none => (st, some .native)
      | some d2 => ({ st with docEl := d2 }, none)
    else (st, some .usage)

/-!
Layer 4: the Component Wrapper `element(fn)` (elements.js lines 885–895):
call `fn` inside a failure boundary; wrap a normal result as
`['wrap', {}, result]`; convert a thrown error into the visible fallback
`['div', {}, `Error: ${err.message}`]` instead of rethrowing.
-/

/-- The outcome of calling the wrapped user function: a normal return, or
a thrown error carrying its `message`. -/
inductive JSOutcome where
  | ret : Val → JSOutcome
  | exn : String → JSOutcome

/-- `element(fn)` (elements.js lines 885–895), with the returned closure
applied to `args`. -/
def element (fn : List Val → JSOutcome) (args : List Val) : Val :=
  match fn args with
  | .ret vnode => .velem "wrap" [] [vnode]
  | .exn msg => .velem "div" [] [.vstr ("Error: " ++ msg)]

mutual

/-- The text a vnode renders to: concatenation of its (stringified)
leaves, in order. -/
def renderedText : Val → String
  | .undef => ""
  | .vstr s => s
  | .vnum n => jsNumStr n
  | .velem _ _ cs => renderedTextList cs
termination_by v => sizeOf v

/-- Text of a child list. -/
def renderedTextList : List Val → String
  | [] => ""
  | c :: cs => renderedText c ++ renderedTextList cs
termination_by cs => sizeOf cs

end

/-!
Auxiliary predicates for the self-diff claims.
-/

mutual

/-- Every leaf of a vnode tree is truthy (non-empty string / non-zero
number); on a bare leaf this is just its truthiness. -/
def leavesTruthy : Val → Bool
  | .velem _ _ cs => leavesTruthyList cs
  | v => truthy v
termination_by v => sizeOf v

/-- `leavesTruthy` over a child list. -/
def leavesTruthyList : List Val → Bool
  | [] => true
  | c :: cs => leavesTruthy c && leavesTruthyList cs
termination_by cs => sizeOf cs

end

mutual

/-- A patch consists only of `UPDATE` nodes and absent (`none`) entries —
no `CREATE`, `REPLACE` or `REMOVE` anywhere. -/
def onlyUpdates : Option Patch → Bool
  | none => true
  | some (.update ps) => onlyUpdatesList ps
  | some _ => false
termination_by p => sizeOf p

/-- `onlyUpdates` over a child-patch list. -/
def onlyUpdatesList : List (Option Patch) → Bool
  | [] => true
  | p :: ps => onlyUpdates p && onlyUpdatesList ps
termination_by ps => sizeOf ps

end

/-!
Helper lemmas.
-/

theorem bne_swap {α : Type _} [DecidableEq α] (x y : α) : (x != y) = (y != x) := by
  rw [Bool.eq_iff_iff]
  simp only [bne_iff_ne]
  exact ne_comm

theorem diffTree_truthy_ne_create (a b : Val) (ha : truthy a = true) (c : Val) :
    diffTree a b ≠ some (Patch.create c) := by
  rw [diffTree]
  split_ifs with h1 h2 h3 <;> simp_all

theorem diffTree_truthy_ne_remove (a b : Val) (ha : truthy a = true) (hb : truthy b = true) :
    diffTree a b ≠ some Patch.remove := by
  rw [diffTree]
  split_ifs with h1 h2 <;> simp_all

theorem changed_self (v : Val) : changed v v = false := by
  cases v <;> simp [changed, typeofVal, isArr, tagOf]

theorem diffChildren_length (as bs : List Val) :
    (diffChildren as bs).length = max as.length bs.length := by
  induction as generalizing bs with
  | nil =>
    induction bs with
    | nil => simp [diffChildren]
    | cons b bs ih => simp [diffChildren, ih]
  | cons a as iha =>
    cases bs with
    | nil => simp [diffChildren, iha]
    | cons b bs => simp [diffChildren, iha]; omega

theorem diffChildren_get (as : List Val) :
    ∀ (bs : List Val) (i : Nat), i < max as.length bs.length →
      (diffChildren as bs)[i]? = some (diffTree (as.getD i .undef) (bs.getD i .undef)) := by
  induction as with
  | nil =>
    intro bs
    induction bs with
    | nil => intro i hi; simp at hi
    | cons b bs ih =>
      intro i hi
      cases i with
      | zero => simp [diffChildren]
      | succ i =>
        simp only [diffChildren, List.getElem?_cons_succ, List.getD_cons_succ]
        refine (ih i ?_).trans ?_
        · simp at hi ⊢; omega
        · simp
  | cons a as iha =>
    intro bs i hi
    cases bs with
    | nil =>
      cases i with
      | zero => simp [diffChildren]
      | succ i =>
        simp only [diffChildren, List.getElem?_cons_succ, List.getD_cons_succ]
        refine (iha [] i ?_).trans ?_
        · simp at hi ⊢; omega
        · simp
    | cons b bs =>
      cases i with
      | zero => simp [diffChildren]
      | succ i =>
        simp only [diffChildren, List.getElem?_cons_succ, List.getD_cons_succ]
        exact iha bs i (by simp at hi ⊢; omega)

/-!
Claim theorems for the diff engine.
-/

/-- C9: `changed` is symmetric: for all pairs of values (leaves or
vnodes), `changed(a, b) = changed(b, a)`. -/
theorem changed_symmetric (a b : Val) : changed a b = changed b a := by
  cases a <;> cases b <;> simp [changed, typeofVal, isArr, tagOf, bne_swap]

/-- C3 counterexample: the number leaf `0` occupies the old slot (it is a
present value, not an absent/undefined slot), yet `diffTree(0, "x")`
returns a `CREATE` patch — the source tests `if (!a)`, and `!0` is `true`
in JS — whereas the claim demands `CREATE` only for absent slots (here
`changed` holds, so the claim would demand `REPLACE`). -/
theorem create_on_present_zero_leaf :
    diffTree (Val.vnum 0) (Val.vstr "x") = some (Patch.create (Val.vstr "x"))
    ∧ Val.vnum 0 ≠ Val.undef
    ∧ diffTree (Val.vstr "") (Val.vstr "x") = some (Patch.create (Val.vstr "x")) := by
  refine ⟨by simp [diffTree, truthy], by simp, by simp [diffTree, truthy]⟩

/-- C3 amended: `diffTree(a, b)` returns a `CREATE` patch exactly when the
old slot `a` is JS-falsy — an absent (`undefined`) slot, the number `0`,
or the empty string — and a `REMOVE` patch exactly when `a` is truthy and
the new slot `b` is falsy. -/
theorem diffTree_create_remove_iff_falsy (a b : Val) :
    (diffTree a b = some (Patch.create b) ↔ truthy a = false)
    ∧ (diffTree a b = some Patch.remove ↔ (truthy a = true ∧ truthy b = false)) := by
  constructor
  · constructor
    · intro h
      by_cases ha : truthy a = true
      · exact absurd h (diffTree_truthy_ne_create a b ha b)
      · simpa using ha
    · intro h
      rw [diffTree]
      simp [h]
  · constructor
    · intro h
      by_cases ha : truthy a = true
      · refine ⟨ha, ?_⟩
        by_cases hb : truthy b = true
        · exact absurd h (diffTree_truthy_ne_remove a b ha hb)
        · simpa using hb
      · have hc : diffTree a b = some (Patch.create b) := by
          rw [diffTree]
          simp only [Bool.not_eq_true] at ha
          simp [ha]
        rw [h] at hc
        simp at hc
    · rintro ⟨ha, hb⟩
      rw [diffTree]
      simp [ha, hb]

/-- C10: two distinct non-zero number leaves in the same slot are never
reported as changed (only string leaves are compared by content), diffing
them produces no patch at all (`undefined`), and an absent patch is a
no-op under `applyPatch`: a numeric text leaf whose value changes between
snapshots is never updated along the diff-and-patch path. -/
theorem distinct_nonzero_number_leaves_no_patch (m n : Int)
    (hm : m ≠ 0) (hn : n ≠ 0) (hmn : m ≠ n) :
    changed (.vnum m) (.vnum n) = false
    ∧ diffTree (.vnum m) (.vnum n) = none
    ∧ ∀ (parent : Dom) (i : Nat), applyPatch parent none i = some parent := by
  refine ⟨by simp [changed, typeofVal, isArr], ?_, fun parent i => by simp [applyPatch]⟩
  simp [diffTree, truthy, hm, hn, changed, typeofVal, isArr]

/-- C10 witness at `m = 3`, `n = 7`. -/
theorem distinct_nonzero_number_leaves_no_patch_witness :
    changed (.vnum 3) (.vnum 7) = false ∧ diffTree (.vnum 3) (.vnum 7) = none := by
  have h := distinct_nonzero_number_leaves_no_patch 3 7 (by decide) (by decide) (by decide)
  exact ⟨h.1, h.2.1⟩

/-- C4: `diffChildren` produces exactly `max(len a, len b)` patches, one
per index, each `diffTree` of the positional pair at that index (an
out-of-range slot reading as `undefined`); and the head-insertion
amplification scenario `[A,B,C]` vs `[X,A,B,C]` (pairwise distinct tags)
yields `REPLACE` at indices 0–2 and a trailing `CREATE` at index 3. -/
theorem diffChildren_positional_shape :
    (∀ (as bs : List Val), (diffChildren as bs).length = max as.length bs.length)
    ∧ (∀ (as bs : List Val) (i : Nat), i < max as.length bs.length →
        (diffChildren as bs)[i]? = some (diffTree (as.getD i .undef) (bs.getD i .undef)))
    ∧ diffChildren
        [Val.velem "a" [] [], Val.velem "b" [] [], Val.velem "c" [] []]
        [Val.velem "x" [] [], Val.velem "a" [] [], Val.velem "b" [] [], Val.velem "c" [] []]
      = [some (Patch.replace (Val.velem "x" [] [])),
         some (Patch.replace (Val.velem "a" [] [])),
         some (Patch.replace (Val.velem "b" [] [])),
         some (Patch.create (Val.velem "c" [] []))] := by
  refine ⟨diffChildren_length, fun as bs i hi => diffChildren_get as bs i hi, ?_⟩
  simp [diffChildren, diffTree, changed, truthy, typeofVal, isArr, tagOf]

/-- C4 witness: the positional-shape clauses evaluated at the concrete
scenario lists, index 3. -/
theorem diffChildren_positional_shape_witness :
    (diffChildren [Val.velem "a" [] []] [Val.velem "x" [] [], Val.velem "c" [] []]).length = 2
    ∧ (diffChildren [Val.velem "a" [] []] [Val.velem "x" [] [], Val.velem "c" [] []])[1]?
        = some (diffTree Val.undef (Val.velem "c" [] [])) := by
  constructor
  · exact diffChildren_positional_shape.1 _ _
  · have h := diffChildren_positional_shape.2.1
      [Val.velem "a" [] []] [Val.velem "x" [] [], Val.velem "c" [] []] 1 (by simp)
    simpa using h

theorem diffTree_self_leaf (v : Val) (hv : truthy v = true) (ha : isArr v = false) :
    diffTree v v = none := by
  rw [diffTree]
  simp [hv, changed_self, ha]

theorem diffTree_self_velem (t : String) (p : Props) (cs : List Val) :
    diffTree (.velem t p cs) (.velem t p cs) = some (.update (diffChildren cs cs)) := by
  rw [diffTree]
  simp [truthy, changed_self, isArr, childrenOf]

theorem self_diff_aux (n : Nat) :
    (∀ v : Val, sizeOf v ≤ n → leavesTruthy v = true → onlyUpdates (diffTree v v) = true)
    ∧ (∀ cs : List Val, sizeOf cs ≤ n → leavesTruthyList cs = true →
        onlyUpdatesList (diffChildren cs cs) = true) := by
  induction n with
  | zero =>
    constructor
    · intro v hv _; exfalso; cases v <;> simp at hv
    · intro cs hcs _; exfalso; cases cs <;> simp at hcs
  | succ n ih =>
    constructor
    · intro v hsz hlt
      cases v with
      | undef => simp [leavesTruthy, truthy] at hlt
      | vstr s =>
        rw [diffTree_self_leaf _ (by simpa [leavesTruthy] using hlt) (by simp [isArr])]
        simp [onlyUpdates]
      | vnum k =>
        rw [diffTree_self_leaf _ (by simpa [leavesTruthy] using hlt) (by simp [isArr])]
        simp [onlyUpdates]
      | velem t p cs =>
        rw [diffTree_self_velem]
        have hcs : leavesTruthyList cs = true := by simpa [leavesTruthy] using hlt
        have hup := ih.2 cs (by simp at hsz; omega) hcs
        simpa [onlyUpdates] using hup
    · intro cs hsz hlt
      cases cs with
      | nil => simp [diffChildren, onlyUpdatesList]
      | cons c cs2 =>
        have heq : diffChildren (c :: cs2) (c :: cs2) = diffTree c c :: diffChildren cs2 cs2 := by
          simp [diffChildren]
        rw [heq]
        simp only [onlyUpdatesList, Bool.and_eq_true]
        simp only [leavesTruthyList, Bool.and_eq_true] at hlt
        exact ⟨ih.1 c (by simp at hsz; omega) hlt.1, ih.2 cs2 (by simp at hsz; omega) hlt.2⟩

/-- C2 counterexample: the vnode `['div', {}, 0]` has a number leaf (`0`),
yet diffing it against a structurally identical copy of itself yields a
`CREATE` patch at the leaf slot (the `if (!a)` truthiness guard fires on
`0`), so the self-diff is not `UPDATE`-only as the claim states for all
trees with string-or-number leaves. -/
theorem self_diff_create_on_zero_leaf :
    diffTree (Val.velem "div" [] [Val.vnum 0]) (Val.velem "div" [] [Val.vnum 0])
      = some (.update [some (.create (Val.vnum 0))])
    ∧ onlyUpdates (diffTree (Val.velem "div" [] [Val.vnum 0])
        (Val.velem "div" [] [Val.vnum 0])) = false := by
  have h : diffTree (Val.velem "div" [] [Val.vnum 0]) (Val.velem "div" [] [Val.vnum 0])
      = some (.update [some (.create (Val.vnum 0))]) := by
    simp [diffTree, diffChildren, truthy, changed, typeofVal, isArr, tagOf, childrenOf]
  refine ⟨h, ?_⟩
  rw [h]
  simp [onlyUpdates, onlyUpdatesList]

/-- C2 amended: for every vnode tree all of whose leaves are truthy
(non-empty strings / non-zero numbers), diffing the tree against a
structurally identical copy of itself yields only `UPDATE` patches at
every vnode level — `UPDATE(diffChildren cs cs)` at each vnode, no patch
(`undefined`) at equal leaves — and zero `CREATE`/`REPLACE`/`REMOVE`
patches anywhere. -/
theorem self_diff_only_updates_of_truthy_leaves (v : Val) (h : leavesTruthy v = true) :
    onlyUpdates (diffTree v v) = true
    ∧ (∀ t p cs, v = Val.velem t p cs → diffTree v v = some (.update (diffChildren cs cs)))
    ∧ (isArr v = false → diffTree v v = none) := by
  refine ⟨(self_diff_aux (sizeOf v)).1 v le_rfl h, ?_, ?_⟩
  · rintro t p cs rfl
    exact diffTree_self_velem t p cs
  · intro ha
    refine diffTree_self_leaf v ?_ ha
    cases v <;> simp_all [leavesTruthy, truthy, isArr]

/-- C2 witness: a concrete two-level tree with truthy leaves self-diffs to
`UPDATE`s only. -/
theorem self_diff_only_updates_witness :
    leavesTruthy (Val.velem "div" [] [Val.vstr "hi", Val.velem "span" [] [Val.vnum 1]]) = true
    ∧ onlyUpdates (diffTree
        (Val.velem "div" [] [Val.vstr "hi", Val.velem "span" [] [Val.vnum 1]])
        (Val.velem "div" [] [Val.vstr "hi", Val.velem "span" [] [Val.vnum 1]])) = true := by
  have hl : leavesTruthy (Val.velem "div" [] [Val.vstr "hi", Val.velem "span" [] [Val.vnum 1]])
      = true := by
    simp [leavesTruthy, leavesTruthyList, truthy]
  exact ⟨hl, (self_diff_only_updates_of_truthy_leaves _ hl).1⟩

/-!
Structural preservation of `applyPatch`: patch application mutates only a
node's child list, never its own tag or bound properties.
-/

theorem setChildAt_shell (d : Dom) (i : Nat) (c : Dom) :
    nodeTag (setChildAt d i c) = nodeTag d ∧ nodeProps (setChildAt d i c) = nodeProps d := by
  cases d <;> simp [setChildAt, nodeTag, nodeProps]

theorem applyPatch_preserves_shell (parent : Dom) (patch : Option Patch) (i : Nat)
    (parent2 : Dom) (h : applyPatch parent patch i = some parent2) :
    nodeTag parent2 = nodeTag parent ∧ nodeProps parent2 = nodeProps parent := by
  cases patch with
  | none =>
    simp only [applyPatch, Option.some.injEq] at h
    subst h; exact ⟨rfl, rfl⟩
  | some p =>
    cases p with
    | create v =>
      simp only [applyPatch] at h
      cases hr : renderTree v true with
      | none => rw [hr] at h; simp at h
      | some newEl =>
        rw [hr] at h
        cases parent with
        | text s sn st => simp [appendChildD] at h
        | elem t pr r sn st cs =>
          simp only [appendChildD, Option.some.injEq] at h
          subst h; simp [nodeTag, nodeProps]
    | remove =>
      simp only [applyPatch] at h
      cases hc : (childNodes parent)[i]? with
      | none => rw [hc] at h; simp at h; subst h; exact ⟨rfl, rfl⟩
      | some c =>
        rw [hc] at h; simp at h; subst h
        cases parent <;> simp [removeChildAt, nodeTag, nodeProps]
    | replace v =>
      simp only [applyPatch] at h
      cases hc : (childNodes parent)[i]? with
      | none => rw [hc] at h; simp at h
      | some c =>
        rw [hc] at h
        cases hr : renderTree v true with
        | none => rw [hr] at h; simp at h
        | some newEl =>
          rw [hr] at h; simp at h; subst h
          exact setChildAt_shell parent i newEl
    | update ps =>
      simp only [applyPatch] at h
      split at h
      · split at h
        · rename_i child hc child2 hal
          simp only [Option.some.injEq] at h
          subst h
          exact setChildAt_shell parent i child2
        · simp at h
      · split at h
        · simp only [Option.some.injEq] at h
          subst h
          exact ⟨rfl, rfl⟩
        · simp at h

theorem applyPatchList_preserves_shell (ps : List (Option Patch)) :
    ∀ (parent : Dom) (i : Nat) (parent2 : Dom),
      applyPatchList parent ps i = some parent2 →
      nodeTag parent2 = nodeTag parent ∧ nodeProps parent2 = nodeProps parent := by
  induction ps with
  | nil =>
    intro parent i parent2 h
    simp only [applyPatchList, Option.some.injEq] at h
    subst h; exact ⟨rfl, rfl⟩
  | cons p ps ih =>
    intro parent i parent2 h
    simp only [applyPatchList] at h
    cases hap : applyPatch parent p i with
    | none => rw [hap] at h; simp at h
    | some pm =>
      rw [hap] at h
      have h1 := applyPatch_preserves_shell parent p i pm hap
      have h2 := ih pm (i + 1) parent2 h
      exact ⟨h2.1.trans h1.1, h2.2.trans h1.2⟩

/-- C8: for same-tag vnodes `changed` is false and `diffTree` recurses
over the child lists from tuple index 2 only — the patch neither mentions
nor depends on props (or even on the common tag), and applying the
resulting `UPDATE` patch never alters the updated host element's tag or
bound properties (nor those of the child it recurses into). -/
theorem same_tag_diff_ignores_props :
    (∀ (t : String) (p q : Props) (cs ds : List Val),
        changed (.velem t p cs) (.velem t q ds) = false
        ∧ diffTree (.velem t p cs) (.velem t q ds) = some (.update (diffChildren cs ds)))
    ∧ (∀ (t t2 : String) (p q p2 q2 : Props) (cs ds : List Val),
        diffTree (.velem t p cs) (.velem t q ds) = diffTree (.velem t2 p2 cs) (.velem t2 q2 ds))
    ∧ (∀ (parent : Dom) (ps : List (Option Patch)) (i : Nat) (parent2 : Dom),
        applyPatch parent (some (.update ps)) i = some parent2 →
          nodeTag parent2 = nodeTag parent ∧ nodeProps parent2 = nodeProps parent
          ∧ ∀ child, (childNodes parent)[i]? = some child →
              ∃ child2, (childNodes parent2)[i]? = some child2
                ∧ nodeTag child2 = nodeTag child ∧ nodeProps child2 = nodeProps child) := by
  have hsame : ∀ (t : String) (p q : Props) (cs ds : List Val),
      changed (.velem t p cs) (.velem t q ds) = false
      ∧ diffTree (.velem t p cs) (.velem t q ds) = some (.update (diffChildren cs ds)) := by
    intro t p q cs ds
    have hch : changed (.velem t p cs) (.velem t q ds) = false := by
      simp [changed, typeofVal, isArr, tagOf]
    refine ⟨hch, ?_⟩
    rw [diffTree]
    simp [truthy, hch, isArr, childrenOf]
  refine ⟨hsame, ?_, ?_⟩
  · intro t t2 p q p2 q2 cs ds
    rw [(hsame t p q cs ds).2, (hsame t2 p2 q2 cs ds).2]
  · intro parent ps i parent2 h
    have hshell := applyPatch_preserves_shell parent (some (.update ps)) i parent2 h
    refine ⟨hshell.1, hshell.2, ?_⟩
    intro child hc
    simp only [applyPatch] at h
    split at h
    · rename_i child0 hc0
      have hid : child0 = child := by
        rw [hc] at hc0
        simp at hc0
        exact hc0.symm
      subst hid
      split at h
      · rename_i child2 hal
        simp only [Option.some.injEq] at h
        subst h
        have hsh := applyPatchList_preserves_shell ps child0 0 child2 hal
        cases parent with
        | text s sn st => simp [childNodes] at hc
        | elem t pr r sn st cs =>
          refine ⟨child2, ?_, hsh.1, hsh.2⟩
          simp only [childNodes] at hc ⊢
          simp only [setChildAt]
          have hi : i < cs.length := by
            by_contra hge
            rw [List.getElem?_eq_none (by omega)] at hc
            cases hc
          rw [List.getElem?_set_self]
          simp [hi]
      · simp at h
    · rename_i hc0
      rw [hc] at hc0
      cases hc0

/-- C8 witness: a concrete same-tag diff with differing props, and a
concrete `UPDATE` application whose host element keeps its tag and props. -/
theorem same_tag_diff_ignores_props_witness :
    diffTree (Val.velem "div" [("id", PropV.pstr "a")] [Val.vstr "x"])
        (Val.velem "div" [("id", PropV.pstr "b")] [Val.vstr "x"])
      = some (Patch.update (diffChildren [Val.vstr "x"] [Val.vstr "x"]))
    ∧ ∃ child2,
        (childNodes (Dom.elem "div" [("k", PropV.pstr "v")] false none none
            [Dom.text "t" none none]))[0]? = some child2
        ∧ nodeTag child2 = nodeTag (Dom.text "t" none none)
        ∧ nodeProps child2 = nodeProps (Dom.text "t" none none) := by
  constructor
  · exact (same_tag_diff_ignores_props.1 "div" [("id", PropV.pstr "a")]
      [("id", PropV.pstr "b")] [Val.vstr "x"] [Val.vstr "x"]).2
  · have hP : applyPatch
        (Dom.elem "div" [("k", PropV.pstr "v")] false none none [Dom.text "t" none none])
        (some (Patch.update [none])) 0
        = some (Dom.elem "div" [("k", PropV.pstr "v")] false none none
            [Dom.text "t" none none]) := by
      simp [applyPatch, applyPatchList, childNodes, setChildAt]
    have h3 := (same_tag_diff_ignores_props.2.2
      (Dom.elem "div" [("k", PropV.pstr "v")] false none none [Dom.text "t" none none])
      [none] 0 _ hP).2.2 (Dom.text "t" none none) (by simp [childNodes])
    simpa using h3

/-!
Tree-surgery lemmas for the self-replacement protocol.
-/

theorem setState_nodeState (d : Dom) (g : Option Int) : nodeState (setState d g) = g := by
  cases d <;> simp [setState, nodeState]

theorem getNode_replaceAt (p : Path) :
    ∀ (doc r doc2 : Dom), replaceAt doc p r = some doc2 → getNode doc2 p = some r := by
  induction p with
  | nil =>
    intro doc r doc2 h
    simp only [replaceAt, Option.some.injEq] at h
    subst h
    simp [getNode]
  | cons i p ih =>
    intro doc r doc2 h
    cases doc with
    | text s sn st => simp [replaceAt] at h
    | elem t pr rt sn st cs =>
      simp only [replaceAt] at h
      split at h
      · simp at h
      · rename_i c hc
        split at h
        · simp at h
        · rename_i c2 hc2
          simp only [Option.some.injEq] at h
          subst h
          have hi : i < cs.length := by
            by_contra hge
            rw [List.getElem?_eq_none (by omega)] at hc
            cases hc
          simp only [getNode, childNodes]
          rw [List.getElem?_set_eq_of_lt _ hi]
          simp only [Option.some_bind]
          exact ih c r c2 hc2

theorem replaceAt_isSome (p : Path) :
    ∀ (doc nd : Dom), getNode doc p = some nd → ∀ r, ∃ doc2, replaceAt doc p r = some doc2 := by
  induction p with
  | nil => intro doc nd _ r; exact ⟨r, by simp [replaceAt]⟩
  | cons i p ih =>
    intro doc nd h r
    cases doc with
    | text s sn st => simp [getNode, childNodes] at h
    | elem t pr rt sn st cs =>
      simp only [getNode, childNodes] at h
      cases hc : cs[i]? with
      | none => rw [hc] at h; simp at h
      | some c =>
        rw [hc] at h
        simp only [Option.some_bind] at h
        obtain ⟨c2, hc2⟩ := ih c nd h r
        refine ⟨.elem t pr rt sn st (cs.set i c2), ?_⟩
        simp [replaceAt, hc, hc2]

theorem nearestRoot_spec (doc : Dom) :
    ∀ (n : Nat) (p : Path), p.length ≤ n → ∀ tp, nearestRoot doc p = some tp →
      ∃ nd, getNode doc tp = some nd ∧ isRootNode nd = true := by
  intro n
  induction n with
  | zero =>
    intro p hp tp h
    have hpnil : p = [] := List.length_eq_zero.mp (Nat.le_zero.mp hp)
    subst hpnil
    rw [nearestRoot] at h
    simp only [getNode, Option.some_bind, List.isEmpty_nil, if_true] at h
    by_cases hr : isRootNode doc = true
    · rw [if_pos hr] at h
      simp only [Option.some.injEq] at h
      subst h
      exact ⟨doc, by simp [getNode], hr⟩
    · rw [if_neg hr] at h
      simp at h
  | succ n ih =>
    intro p hp tp h
    rw [nearestRoot] at h
    split at h
    · simp at h
    · rename_i nd hg
      by_cases hr : isRootNode nd = true
      · rw [if_pos hr] at h
        simp only [Option.some.injEq] at h
        subst h
        exact ⟨nd, hg, hr⟩
      · rw [if_neg hr] at h
        by_cases he : p.isEmpty = true
        · rw [if_pos he] at h
          simp at h
        · rw [if_neg he] at h
          exact ih p.dropLast (by simp [List.length_dropLast]; omega) tp h

/-- C1: when an installed listener fires and the nearest root-marked
ancestor (found by the upward walk) has generation `g` in the side table
(default `0` with no entry), a handler returning a vnode causes
whole-subtree replacement: the vnode is materialized as a new root
(`renderTree(result, true)`), the old root element is replaced at its path
in its host parent, and the side table records exactly `g + 1` for the new
root; a non-array return value causes no replacement and no generation
change. -/
theorem event_self_replacement_increments_generation
    (doc : Dom) (elPath : Path) (handler : Int → HRes) (tpath : Path) (g : Int)
    (h1 : nearestRoot doc elPath = some tpath)
    (h2 : (stateOf doc tpath).getD 0 = g)
    (h4 : tpath ≠ []) :
    (∀ result repl, handler g = .arr result → renderTree result true = some repl →
        fire doc elPath handler
          = replaceAt doc tpath (setState (setSnapshot repl (some result)) (some (g + 1)))
        ∧ ∃ doc2,
            fire doc elPath handler = some doc2
            ∧ getNode doc2 tpath
                = some (setState (setSnapshot repl (some result)) (some (g + 1)))
            ∧ stateOf doc2 tpath = some (g + 1))
    ∧ (handler g = .nonArr → fire doc elPath handler = some doc) := by
  have hemp : tpath.isEmpty = false := by
    cases tpath with
    | nil => exact absurd rfl h4
    | cons a as => rfl
  constructor
  · intro result repl hr hrt
    have hfire : fire doc elPath handler
        = replaceAt doc tpath (setState (setSnapshot repl (some result)) (some (g + 1))) := by
      simp only [fire, h1, h2, hr, hemp, Bool.false_eq_true, if_false, hrt]
    refine ⟨hfire, ?_⟩
    obtain ⟨nd, hnd, _⟩ := nearestRoot_spec doc elPath.length elPath le_rfl tpath h1
    obtain ⟨doc2, hdoc2⟩ := replaceAt_isSome tpath doc nd hnd
      (setState (setSnapshot repl (some result)) (some (g + 1)))
    refine ⟨doc2, hfire.trans hdoc2, ?_, ?_⟩
    · exact getNode_replaceAt tpath doc _ doc2 hdoc2
    · have hg := getNode_replaceAt tpath doc _ doc2 hdoc2
      simp [stateOf, hg, setState_nodeState]
  · intro hr
    simp only [fire, h1, h2, hr]

/-- A concrete host tree for the dispatch witnesses: a `main` wrapper, a
root-marked `div` at generation 4, and a `button` carrying the listener. -/
def witnessDoc : Dom :=
  Dom.elem "main" [] false none none
    [Dom.elem "div" [] true none (some 4)
      [Dom.elem "button" [] false none none []]]

theorem witnessDoc_nearestRoot : nearestRoot witnessDoc [0, 0] = some [0] := by
  have ha : nearestRoot witnessDoc [0] = some [0] := by
    rw [nearestRoot]
    simp [witnessDoc, getNode, childNodes, isRootNode]
  have hg2 : getNode witnessDoc [0, 0] = some (Dom.elem "button" [] false none none []) := by
    simp [witnessDoc, getNode, childNodes]
  rw [nearestRoot]
  simp [hg2, isRootNode, List.dropLast, ha]

theorem witnessDoc_gen : (stateOf witnessDoc [0]).getD 0 = 4 := by
  simp [witnessDoc, stateOf, getNode, childNodes, nodeState]

/-- C1 witness: on `witnessDoc` (root `div` at generation 4), a handler
returning a `span` vnode replaces the root and the side table reads 5. -/
theorem event_self_replacement_witness :
    ∃ doc2,
      fire witnessDoc [0, 0] (fun _ => HRes.arr (Val.velem "span" [] [])) = some doc2
      ∧ stateOf doc2 [0] = some 5 := by
  have h5 : renderTree (Val.velem "span" [] []) true
      = some (Dom.elem "span" [] true (some (Val.velem "span" [] [])) (some 0) []) := by
    rw [renderTree]
    simp [renderTreeList, isNodeEnv, rootFlag, genSeed]
  have h := (event_self_replacement_increments_generation witnessDoc [0, 0]
    (fun _ => HRes.arr (Val.velem "span" [] [])) [0] 4
    witnessDoc_nearestRoot witnessDoc_gen (by simp)).1 (Val.velem "span" [] []) _ rfl h5
  obtain ⟨-, doc2, hd, -, hs⟩ := h
  exact ⟨doc2, hd, by rw [hs]; norm_num⟩

/-- C7: when an installed listener for event key `k` fires and the upward
walk finds a root with generation `g` (default 0), the user handler is
invoked with the generation as argument — except for the recognized
input-like subset (`oninput`, `onsubmit`, `onchange`, per the anchored
regex), where the native event payload is passed instead. -/
theorem handler_argument_dispatch
    (doc : Dom) (elPath : Path) (k : String) (handler : HandlerArg → HRes)
    (tpath : Path) (g : Int)
    (h1 : nearestRoot doc elPath = some tpath)
    (h2 : (stateOf doc tpath).getD 0 = g) :
    (fireEvented doc elPath k handler).2
      = some (if isInputLikeEvent k then HandlerArg.eventPayload else HandlerArg.generation g)
    ∧ (isInputLikeEvent k = true ↔ (k = "oninput" ∨ k = "onsubmit" ∨ k = "onchange")) := by
  constructor
  · simp only [fireEvented, h1, h2]
  · simp [isInputLikeEvent, or_assoc]

/-- C7 witness: on `witnessDoc`, `onclick` passes generation 4 while
`oninput` passes the event payload. -/
theorem handler_argument_dispatch_witness :
    (fireEvented witnessDoc [0, 0] "onclick" (fun _ => HRes.nonArr)).2
      = some (HandlerArg.generation 4)
    ∧ (fireEvented witnessDoc [0, 0] "oninput" (fun _ => HRes.nonArr)).2
      = some HandlerArg.eventPayload := by
  constructor
  · have h := (handler_argument_dispatch witnessDoc [0, 0] "onclick" (fun _ => HRes.nonArr)
      [0] 4 witnessDoc_nearestRoot witnessDoc_gen).1
    simpa [isInputLikeEvent] using h
  · have h := (handler_argument_dispatch witnessDoc [0, 0] "oninput" (fun _ => HRes.nonArr)
      [0] 4 witnessDoc_nearestRoot witnessDoc_gen).1
    simpa [isInputLikeEvent] using h

/-!
Render entry point lemmas.
-/

theorem renderTree_htmlTagged_snapshot (vtree : Val) (dom : Dom)
    (hh : isHtmlTagged vtree = true) (hr : renderTree vtree true = some dom) :
    nodeSnapshot dom = some vtree := by
  cases vtree with
  | undef => simp [isHtmlTagged, isArr] at hh
  | vstr s => simp [isHtmlTagged, isArr] at hh
  | vnum n => simp [isHtmlTagged, isArr] at hh
  | velem t p cs =>
    have ht : t = "html" := by simpa [isHtmlTagged, isArr, tagOf] using hh
    subst ht
    rw [renderTree] at hr
    rw [if_neg (by decide)] at hr
    rw [if_neg (by simp [isNodeEnv])] at hr
    split at hr
    · simp at hr
    · rename_i ds hl
      simp only [Option.some.injEq] at hr
      subst hr
      simp [nodeSnapshot]

/-- C5: `render(vtree, container?)` throws the usage error iff no
container was supplied and `vtree` is not an `html`-tagged tree; the
throw happens before any host mutation or snapshot update, so the state
is unchanged on error.  In every non-throwing call: a target with no
stored snapshot is fully materialized and inserted (appended to a
supplied container, wholesale replacement of the document element when
the target is the singleton), a target with a previous snapshot receives
`applyPatch(target, diffTree(previous, vtree))`, and in both branches
`vtree` is stored as the target's new snapshot. -/
theorem render_usage_error_and_branches (vtree : Val) (st : RenderState) :
    ((render vtree st).2 = some RenderErr.usage
      ↔ (st.container = none ∧ isHtmlTagged vtree = false))
    ∧ ((render vtree st).2 = some RenderErr.usage → (render vtree st).1 = st)
    ∧ (∀ c dom c2, st.container = some c → nodeSnapshot c = none →
        renderTree vtree true = some dom → appendChildD c dom = some c2 →
        render vtree st = ({ st with container := some (setSnapshot c2 (some vtree)) }, none))
    ∧ (∀ c pv t2, st.container = some c → nodeSnapshot c = some pv → truthy pv = true →
        applyPatch c (diffTree pv vtree) 0 = some t2 →
        render vtree st = ({ st with container := some (setSnapshot t2 (some vtree)) }, none))
    ∧ (∀ dom, st.container = none → isHtmlTagged vtree = true →
        nodeSnapshot st.docEl = none → renderTree vtree true = some dom →
        render vtree st = ({ st with docEl := dom }, none) ∧ nodeSnapshot dom = some vtree)
    ∧ (∀ pv t2, st.container = none → isHtmlTagged vtree = true →
        nodeSnapshot st.docEl = some pv → truthy pv = true →
        applyPatch st.docEl (diffTree pv vtree) 0 = some t2 →
        render vtree st = ({ st with docEl := setSnapshot t2 (some vtree) }, none)) := by
  refine ⟨?_, ?_, ?_, ?_, ?_, ?_⟩
  · cases hco : st.container with
    | some c =>
      constructor
      · intro h
        exfalso
        simp only [render, hco] at h
        split at h <;> simp_all
      · rintro ⟨hc, -⟩
        exact absurd hc (by simp [hco])
    | none =>
      by_cases hh : isHtmlTagged vtree = true
      · constructor
        · intro h
          exfalso
          simp only [render, hco, hh, if_true] at h
          split at h <;> simp_all
        · rintro ⟨-, hf⟩
          exact absurd hf (by simp [hh])
      · have hf : isHtmlTagged vtree = false := by
          simpa using hh
        simp only [render, hco, hf, Bool.false_eq_true, if_false]
        simp
  · intro h
    cases hco : st.container with
    | some c =>
      exfalso
      simp only [render, hco] at h
      split at h <;> simp_all
    | none =>
      by_cases hh : isHtmlTagged vtree = true
      · exfalso
        simp only [render, hco, hh, if_true] at h
        split at h <;> simp_all
      · have hf : isHtmlTagged vtree = false := by simpa using hh
        simp only [render, hco, hf, Bool.false_eq_true, if_false]
  · intro c dom c2 hc hsn hr ha
    have hro : renderOnTarget vtree c false = some (setSnapshot c2 (some vtree)) := by
      simp only [renderOnTarget, hsn, mountOnTarget, hr, ha]
      simp
    simp only [render, hc, hro]
  · intro c pv t2 hc hsn htr hap
    have hro : renderOnTarget vtree c false = some (setSnapshot t2 (some vtree)) := by
      simp only [renderOnTarget, hsn, htr, if_true, hap]
    simp only [render, hc, hro]
  · intro dom hc hh hsn hr
    have hro : renderOnTarget vtree st.docEl true = some dom := by
      simp only [renderOnTarget, hsn, mountOnTarget, hr]
      simp
    refine ⟨?_, renderTree_htmlTagged_snapshot vtree dom hh hr⟩
    simp only [render, hc, hh, if_true, hro]
  · intro pv t2 hc hh hsn htr hap
    have hro : renderOnTarget vtree st.docEl true = some (setSnapshot t2 (some vtree)) := by
      simp only [renderOnTarget, hsn, htr, if_true, hap]
    simp only [render, hc, hh, if_true, hro]

/-- C5 witness: a non-`html` tree with no container throws the usage error
and leaves the state unchanged; a first render into a fresh container
appends the materialization and stores the snapshot. -/
theorem render_usage_error_and_branches_witness :
    (render (Val.velem "div" [] [])
        ⟨Dom.elem "html" [] false none none [], none⟩).2 = some RenderErr.usage
    ∧ (render (Val.velem "div" [] [])
        ⟨Dom.elem "html" [] false none none [], none⟩).1
        = ⟨Dom.elem "html" [] false none none [], none⟩
    ∧ render (Val.velem "p" [] [])
        ⟨Dom.elem "html" [] false none none [],
          some (Dom.elem "root" [] false none none [])⟩
      = (⟨Dom.elem "html" [] false none none [],
          some (Dom.elem "root" [] false (some (Val.velem "p" [] [])) none
            [Dom.elem "p" [] true (some (Val.velem "p" [] [])) (some 0) []])⟩, none) := by
  have hu := (render_usage_error_and_branches (Val.velem "div" [] [])
      ⟨Dom.elem "html" [] false none none [], none⟩).1.mpr
    ⟨rfl, by simp [isHtmlTagged, isArr, tagOf]⟩
  refine ⟨hu, (render_usage_error_and_branches _ _).2.1 hu, ?_⟩
  have hr : renderTree (Val.velem "p" [] []) true
      = some (Dom.elem "p" [] true (some (Val.velem "p" [] [])) (some 0) []) := by
    rw [renderTree]
    simp [renderTreeList, isNodeEnv, rootFlag, genSeed]
  have ha : appendChildD (Dom.elem "root" [] false none none [])
      (Dom.elem "p" [] true (some (Val.velem "p" [] [])) (some 0) [])
      = some (Dom.elem "root" [] false none none
          [Dom.elem "p" [] true (some (Val.velem "p" [] [])) (some 0) []]) := by
    simp [appendChildD]
  have h := (render_usage_error_and_branches (Val.velem "p" [] [])
      ⟨Dom.elem "html" [] false none none [],
        some (Dom.elem "root" [] false none none [])⟩).2.2.1
    (Dom.elem "root" [] false none none [])
    (Dom.elem "p" [] true (some (Val.velem "p" [] [])) (some 0) [])
    (Dom.elem "root" [] false none none
      [Dom.elem "p" [] true (some (Val.velem "p" [] [])) (some 0) []])
    rfl (by simp [nodeSnapshot]) hr ha
  simpa [setSnapshot] using h

/-- C6: the component wrapper returns `['wrap', {}, result]` whenever the
wrapped function returns normally, and converts a thrown error into the
visible fallback `['div', {}, "Error: " ++ message]` — the failure is not
propagated, and the fallback's rendered text contains the error message. -/
theorem element_wrap_and_fallback (fn : List Val → JSOutcome) (args : List Val) :
    (∀ r, fn args = .ret r → element fn args = .velem "wrap" [] [r])
    ∧ (∀ msg, fn args = .exn msg →
        element fn args = .velem "div" [] [.vstr ("Error: " ++ msg)]
        ∧ ∃ pre post, renderedText (element fn args) = pre ++ msg ++ post) := by
  constructor
  · intro r h
    simp [element, h]
  · intro msg h
    constructor
    · simp [element, h]
    · refine ⟨"Error: ", "", ?_⟩
      simp [element, h, renderedText, renderedTextList]

/-- C6 witness: a normal return is wrapped; a thrown `"boom"` yields the
fallback whose rendered text contains `"boom"`. -/
theorem element_wrap_and_fallback_witness :
    element (fun _ => JSOutcome.ret (Val.velem "p" [] [])) []
      = Val.velem "wrap" [] [Val.velem "p" [] []]
    ∧ element (fun _ => JSOutcome.exn "boom") [] = Val.velem "div" [] [Val.vstr "Error: boom"]
    ∧ ∃ pre post,
        renderedText (element (fun _ => JSOutcome.exn "boom") []) = pre ++ "boom" ++ post := by
  refine ⟨(element_wrap_and_fallback _ []).1 _ rfl, ?_, ?_⟩
  · exact ((element_wrap_and_fallback (fun _ => JSOutcome.exn "boom") []).2 "boom" rfl).1
  · exact ((element_wrap_and_fallback (fun _ => JSOutcome.exn "boom") []).2 "boom" rfl).2

end Expressive
